import Mathlib

/-!
Verification development for the `mediaserver-sync` repository (Go).

The repository exposes disk directory trees over HTTP.  Its core is the
`FilesystemObject` (FSO) tree in `pkg/fs` with the operations `Scan`
(rebuild children from disk), `Clean` (recursively remove empty
directories), `GetAllFiles` (flatten regular files), the process-wide
content cache (`filecache.go`), the `Registry` (web-prefix to disk-root
mapping, `registry.go`) and the HTTP download/delete handler
(`pkg/server`, `DownloadHandler.ServeHTTP` with `containsDotDot`).

This file is a shallow embedding of those functions.  Pure string and
path manipulation (`path.Clean`, `path.Join`, `path.Base`,
`strings.ReplaceAll`, `strings.TrimPrefix`, `strings.TrimRight`,
`strings.FieldsFunc`) is translated function by function from the Go
standard library semantics used by the repository.  Disk access is made
explicit: `Scan`/`Clean` operate on the in-memory tree that the
preceding scan produced, and disk mutations (calls to `os.Remove`) as
well as checksum computations (`GenerateSum`) are collected in explicit
effect lists.  Machine integers (`int64` sizes, `time.Time` modification
stamps, `os.FileMode` bits) are modelled as `Int`/`Nat`; the repository
only ever compares them for equality or tests individual mode bits, so
no overflow behaviour is involved.  All definitions are structural
recursions (with an explicit fuel argument where Go iterates with a
cursor), so every concrete instance evaluates by `decide`/`rfl`; fuel
arguments are always instantiated with a provably sufficient bound.
-/

/-! ## Go string primitives -/

/-- `pat.isPrefixOf l` for character lists (Go `strings.HasPrefix`). -/
def listIsPrefixOf : List Char → List Char → Bool
  | [], _ => true
  | _ :: _, [] => false
  | a :: pa, b :: l => a == b && listIsPrefixOf pa l

/-- Substring test underlying Go `strings.Contains`. -/
def listIsInfix (pat : List Char) : List Char → Bool
  | [] => listIsPrefixOf pat []
  | c :: r => listIsPrefixOf pat (c :: r) || listIsInfix pat r

/-- Go `strings.Contains s sub` (as used by `containsDotDot`). -/
def goContains (s sub : String) : Bool :=
  listIsInfix sub.toList s.toList

/-- Go `strings.HasPrefix s pre`. -/
def goHasPrefixStr (s pre : String) : Bool :=
  listIsPrefixOf pre.toList s.toList

/-- Go `strings.HasSuffix s suf`. -/
def goHasSuffixStr (s suf : String) : Bool :=
  listIsPrefixOf suf.toList.reverse s.toList.reverse

/-- The rune predicate `isSlashRune` from `pkg/server/fileinfo.go`:
`r == '/' || r == '\\'`. -/
def isSlashRune (c : Char) : Bool :=
  c == '/' || c == '\\'

/-- Accumulating loop of Go `strings.FieldsFunc`: `cur` is the current
field collected so far, in reverse order. -/
def goFieldsFuncAux (f : Char → Bool) : List Char → List Char → List String
  | cur, [] => if cur = [] then [] else [String.mk cur.reverse]
  | cur, c :: r =>
    if f c then
      if cur = [] then goFieldsFuncAux f [] r
      else String.mk cur.reverse :: goFieldsFuncAux f [] r
    else goFieldsFuncAux f (c :: cur) r

/-- Go `strings.FieldsFunc s f`: the maximal runs of characters not
satisfying `f` (empty fields are not produced). -/
def goFieldsFunc (s : String) (f : Char → Bool) : List String :=
  goFieldsFuncAux f [] s.toList

/-- `containsDotDot` from `pkg/server/fileinfo.go`: quickly answers
`false` when `".."` is not even a substring, otherwise reports whether
some slash-delimited segment is exactly `".."`. -/
def containsDotDot (p : String) : Bool :=
  if !(goContains p "..") then false
  else (goFieldsFunc p isSlashRune).any (fun ent => ent == "..")

/-- Go `strings.TrimPrefix s pre`: removes `pre` from the front of `s`
when it is a prefix, otherwise returns `s` unchanged. -/
def goTrimPrefixOf (s pre : String) : String :=
  if listIsPrefixOf pre.toList s.toList then
    String.mk (s.toList.drop pre.toList.length)
  else s

/-- Go `strings.TrimRight s cutset`: removes trailing characters of `s`
that belong to `cutset`. -/
def goTrimRight (s : String) (cutset : List Char) : String :=
  String.mk ((s.toList.reverse.dropWhile (fun c => cutset.contains c)).reverse)

/-- Replacement loop of Go `strings.Replace` with `n = -1` and a
non-empty pattern: replaces every non-overlapping occurrence of `pat`
by `rep`, scanning left to right.  Each step consumes at least one
input character, so fuel `= input length` makes the fuel guard dead. -/
def replaceAllLoop (pat rep : List Char) : Nat → List Char → List Char
  | _, [] => []
  | 0, l => l
  | fuel + 1, c :: rest =>
    if listIsPrefixOf pat (c :: rest) then
      rep ++ replaceAllLoop pat rep fuel ((c :: rest).drop pat.length)
    else
      c :: replaceAllLoop pat rep fuel rest

/-- Interleaving used by Go `strings.Replace` with an empty pattern:
`new` is inserted before every rune and after the last one. -/
def emptyPatReplace (rep : List Char) : List Char → List Char
  | [] => []
  | c :: r => c :: (rep ++ emptyPatReplace rep r)

/-- Go `strings.ReplaceAll s old new` (used by `newWebObject` in
`pkg/fs/registry.go`). -/
def goReplaceAll (s old new : String) : String :=
  if old.toList = [] then
    String.mk (new.toList ++ emptyPatReplace new.toList s.toList)
  else
    String.mk (replaceAllLoop old.toList new.toList s.toList.length s.toList)

/-! ## Go `path.Clean`, `path.Join`, `path.Base` -/

/-- The segment pop performed by the `..` case of Go `path.Clean`:
after the unconditional `out.w--`, characters are dropped while the
write index stays above `dotdot` and the character just dropped is not
`'/'`.  The buffer is kept in reverse order (head = last written
character); `popped` is the character removed by the preceding step.
Fuel `= buffer length` makes the fuel guard dead. -/
def cleanPopLoop (dotdot : Nat) : Nat → List Char → Char → List Char
  | 0, out, _ => out
  | fuel + 1, out, popped =>
    if out.length > dotdot ∧ popped ≠ '/' then
      match out with
      | [] => []
      | c :: r => cleanPopLoop dotdot fuel r c
    else out

/-- The main loop of Go `path.Clean` over the remaining input `rem`,
with the output buffer `out` kept in reverse order and `dotdot` the
write index below which `..` may not pop.  Each iteration consumes at
least one input character, so fuel `= input length` makes the fuel
guard dead. -/
def cleanCore (rooted : Bool) : Nat → Nat → List Char → List Char → List Char
  | _, _, out, [] => out
  | 0, _, out, _ => out
  | fuel + 1, dotdot, out, c :: r =>
    if c = '/' then
      cleanCore rooted fuel dotdot out r
    else if c = '.' ∧ (r = [] ∨ r.head? = some '/') then
      cleanCore rooted fuel dotdot out r
    else if c = '.' ∧ r.head? = some '.' ∧ (r.tail = [] ∨ r.tail.head? = some '/') then
      if out.length > dotdot then
        match out with
        | [] => cleanCore rooted fuel dotdot [] r.tail
        | c0 :: out0 => cleanCore rooted fuel dotdot (cleanPopLoop dotdot out0.length out0 c0) r.tail
      else if !rooted then
        let out2 := if out.length > 0 then '/' :: out else out
        cleanCore rooted fuel (out2.length + 2) ('.' :: '.' :: out2) r.tail
      else
        cleanCore rooted fuel dotdot out r.tail
    else
      let out2 := if (rooted ∧ out.length ≠ 1) ∨ (!rooted ∧ out.length ≠ 0) then '/' :: out else out
      let seg := (c :: r).takeWhile (fun x => x ≠ '/')
      let rest := (c :: r).dropWhile (fun x => x ≠ '/')
      cleanCore rooted fuel dotdot (seg.reverse ++ out2) rest

/-- Go `path.Clean`: the lexical simplification applied by `path.Join`.
Empty input yields `"."`; a rooted path keeps its leading slash; `.`
segments vanish; `..` pops the previous segment (or is kept at the
front of a relative path); an empty result becomes `"."`. -/
def pathClean (p : String) : String :=
  if p.toList = [] then "."
  else
    let l := p.toList
    let rooted := l.head? = some '/'
    let out :=
      if rooted then cleanCore true l.tail.length 1 ['/'] l.tail
      else cleanCore false l.length 0 [] l
    if out.length = 0 then "." else String.mk out.reverse

/-- Go `path.Join a b` (two arguments, as used by the repository):
skips empty elements, joins the rest with `"/"` and applies
`path.Clean`; all-empty input yields `""`. -/
def pathJoin (a b : String) : String :=
  if a = "" ∧ b = "" then ""
  else if a = "" then pathClean b
  else if b = "" then pathClean a
  else pathClean (a ++ "/" ++ b)

/-- Go `path.Base`: the last element of the path after removing
trailing slashes; `""` gives `"."`, an all-slash path gives `"/"`. -/
def pathBase (p : String) : String :=
  if p.toList = [] then "."
  else
    let l := p.toList.reverse.dropWhile (fun c => c == '/')
    if l = [] then "/"
    else String.mk ((l.takeWhile (fun c => c ≠ '/')).reverse)

example : pathClean "/data/a/../b" = "/data/b" := by decide
example : pathClean "a/b/../../c" = "c" := by decide
example : pathClean "" = "." := by decide
example : pathJoin "/data" "a/../b" = "/data/b" := by decide
example : pathJoin "/r" "a.mp4" = "/r/a.mp4" := by decide
example : pathBase "/root/.hidden/movie.mp4" = "movie.mp4" := by decide
example : pathBase "///" = "/" := by decide
example : containsDotDot "/media/a/../b" = true := by decide
example : containsDotDot "/a..b" = false := by decide
example : goReplaceAll "/data/media/x/y.mp4" "/data/media" "/media" = "/media/x/y.mp4" := by decide
example : goTrimRight "/media/" ['/'] = "/media" := by decide
example : goTrimPrefixOf "/media/x/y.mp4" "/media/" = "x/y.mp4" := by decide

/-! ## The FilesystemObject tree (`pkg/fs`)

`FSO` is the in-memory tree node (`FilesystemObject` in Go) restricted
to the fields the tree operations `Clean` and `GetAllFiles` consult:
the path, the `IsDir` flag, the `Mode.IsRegular()` projection of the
mode bits (for non-directories), the `Root` flag (directories; child
nodes are always created with `root = false` by `Scan`) and the child
list.  Metadata-only fields (size, modification time, digest,
content-type) never influence these operations and are modelled
separately for the cache claims below. -/

inductive FSO where
  | file (path : String) (regular : Bool)
  | dir (path : String) (root : Bool) (children : List FSO)
deriving Repr

/-- The two control errors of `Clean`: `ErrIsNotDir` (invoked on a
non-directory) and `ErrDirNotEmpty` (the keep-me control signal). -/
inductive CleanErr where
  | errIsNotDir
  | errDirNotEmpty
deriving Repr, DecidableEq

/-- The child loop of `FilesystemObject.Clean`: non-directory children
are kept unconditionally; directory children are cleaned recursively —
`ErrDirNotEmpty` keeps the child, a `nil` return drops it (the child
either deleted itself from disk, or was a root that merely returned).
The second component collects the paths passed to the removal call
(`fso.Delete()`, i.e. `os.Remove`, in the current `fs.go`; the older
revision routes the same decision to `DeleteCacheFile` with the
`os.Remove` commented out).  In this pure model the removal itself and
the disk re-`Scan` of a root cannot fail, so the abort-on-error branch
of the loop is unreachable and does not appear. -/
def cleanList : List FSO → List FSO × List String
  | [] => ([], [])
  | .file fp fr :: rest =>
    let r := cleanList rest
    (.file fp fr :: r.1, r.2)
  | .dir dp droot dcs :: rest =>
    let c := cleanList dcs
    let r := cleanList rest
    if droot then (r.1, c.2 ++ r.2)
    else if c.1.length > 0 then (.dir dp droot c.1 :: r.1, c.2 ++ r.2)
    else (r.1, (c.2 ++ [dp]) ++ r.2)

/-- `FilesystemObject.Clean` on one node, after the initial `Scan`
that a root performs (the input tree is the scanned state): returns the
Go error value (`none` = `nil`), the node with its updated child list,
and the removal paths.  A root returns `nil` without deleting itself; a
non-root with remaining children returns `ErrDirNotEmpty`; an emptied
non-root appends its own path to the removals and returns `nil`. -/
def cleanNode : FSO → Option CleanErr × FSO × List String
  | .file p r => (some .errIsNotDir, .file p r, [])
  | .dir p root cs =>
    let c := cleanList cs
    if root then (none, .dir p root c.1, c.2)
    else if c.1.length > 0 then (some .errDirNotEmpty, .dir p root c.1, c.2)
    else (none, .dir p root c.1, c.2 ++ [p])

/-- A forest contains some non-directory node (at any depth). -/
def listHasNonDir : List FSO → Bool
  | [] => false
  | .file _ _ :: _ => true
  | .dir _ _ cs :: rest => listHasNonDir cs || listHasNonDir rest

/-- A subtree contains some non-directory node. -/
def subtreeHasNonDir : FSO → Bool
  | .file _ _ => true
  | .dir _ _ cs => listHasNonDir cs

/-- A forest contains some regular-file node (at any depth). -/
def listHasRegFile : List FSO → Bool
  | [] => false
  | .file _ reg :: rest => reg || listHasRegFile rest
  | .dir _ _ cs :: rest => listHasRegFile cs || listHasRegFile rest

/-- A subtree contains some regular-file node. -/
def subtreeHasRegFile : FSO → Bool
  | .file _ reg => reg
  | .dir _ _ cs => listHasRegFile cs

/-- Every directory node of the forest (at any depth) contains at
least one non-directory descendant. -/
def listDirsHaveNonDir : List FSO → Bool
  | [] => true
  | .file _ _ :: rest => listDirsHaveNonDir rest
  | .dir _ _ cs :: rest => (listHasNonDir cs && listDirsHaveNonDir cs) && listDirsHaveNonDir rest

/-- The paths of all directory nodes of a forest (at any depth). -/
def listDirPaths : List FSO → List String
  | [] => []
  | .file _ _ :: rest => listDirPaths rest
  | .dir p _ cs :: rest => p :: (listDirPaths cs ++ listDirPaths rest)

/-- `FilesystemObject.GetAllFiles` over a child list: directory
children are recursed into unconditionally; a non-directory child is
collected iff it is a regular file whose base name does not start with
`"."` and whose path does not end with `"~"`. -/
def getAllFilesList : List FSO → List FSO
  | [] => []
  | .dir _ _ dcs :: rest =>
    getAllFilesList dcs ++ getAllFilesList rest
  | .file fp freg :: rest =>
    (if freg && !(goHasPrefixStr (pathBase fp) ".") && !(goHasSuffixStr fp "~") then
      [FSO.file fp freg]
    else []) ++ getAllFilesList rest

/-- `FilesystemObject.GetAllFiles`: flattens the files of the node's
children (the node itself is never collected). -/
def fsoGetAllFiles : FSO → List FSO
  | .file _ _ => []
  | .dir _ _ cs => getAllFilesList cs

/-- The `Path` field of a node. -/
def fsoPath : FSO → String
  | .file p _ => p
  | .dir p _ _ => p

/-- `WebObject` from `pkg/fs/registry.go`: a wrapped node plus the
rewritten web path. -/
structure WebObject where
  fso : FSO
  webPath : String

/-- `newWebObject` from `pkg/fs/registry.go`:
`wp := strings.ReplaceAll(fso.Path, diskPath, strings.TrimRight(webPath, "/"))`. -/
def newWebObject (webPath diskPath : String) (fso : FSO) : WebObject :=
  { fso := fso, webPath := goReplaceAll (fsoPath fso) diskPath (goTrimRight webPath ['/']) }

/-- `Registry.GetAllFiles` from `pkg/fs/registry.go`, with the
registry's map modelled as an association list (Go map iteration order
is unspecified): for every registered pair, `Clean` the root (any
non-`nil` error aborts the whole listing) and collect its
`GetAllFiles` results wrapped by `newWebObject p fso.Path`. -/
def registryGetAllFiles : List (String × FSO) → Except CleanErr (List WebObject)
  | [] => .ok []
  | (p, fso) :: rest =>
    let c := cleanNode fso
    match c.1 with
    | some e => .error e
    | none =>
      match registryGetAllFiles rest with
      | .error e => .error e
      | .ok others => .ok ((fsoGetAllFiles c.2.1).map (newWebObject p (fsoPath fso)) ++ others)

example :
    cleanNode (.dir "/r" true [.dir "/r/d" false [.file "/r/d/p" false]]) =
      (none, .dir "/r" true [.dir "/r/d" false [.file "/r/d/p" false]], []) := by
  simp [cleanNode, cleanList]

example :
    cleanNode (.dir "/r" true [.dir "/r/d" false [.dir "/r/d/e" false []]]) =
      (none, .dir "/r" true [], ["/r/d/e", "/r/d"]) := by
  simp [cleanNode, cleanList]

/-! ## The content-cache revision of the constructors (`fs.go` with
`Hash`/`GenerateSum`/`FSObjFromPath`)

`FilesystemObjectV2` carries the metadata fields of that revision's
`FilesystemObject` (`Path`, `Hash`, `ContentType`, `Size`, `ModTime`,
`IsDir`, the `Mode.IsRegular()` projection, `Root`); the child list is
represented by the surrounding tree type `FSOTree` below.  The SHA-1
digest (`GenerateSum`) and the sniffed content-type
(`DetectContentType`) are modelled by oracles `digest`/`ctype` mapping
the path to the value computed from the file's bytes; the paths on
which `GenerateSum` runs are returned as an explicit effect list, so
"the digest was (not) recomputed" is the effect list being (non-)empty.
I/O failures of `GenerateSum`/`DetectContentType` are absent from this
pure model (the file bytes are always readable). -/

structure FilesystemObjectV2 where
  path : String
  hash : String
  contentType : String
  size : Int
  modTime : Nat
  isDir : Bool
  regular : Bool
  root : Bool
deriving Repr, DecidableEq

/-- The fields of Go `os.FileInfo` that the constructors read
(`Size()`, `ModTime()`, `IsDir()`, `Mode().IsRegular()`). -/
structure GoFileInfo where
  size : Int
  modTime : Nat
  isDir : Bool
  regular : Bool
deriving Repr, DecidableEq

/-- `FilesystemObject.IsEqual` from the cache revision of `fs.go`:
`fso.Path == path && fso.Size == size && fso.ModTime == modTime`. -/
def IsEqual (fso : FilesystemObjectV2) (path : String) (size : Int) (modTime : Nat) : Bool :=
  fso.path == path && fso.size == size && fso.modTime == modTime

/-- `NewFSObj` from the cache revision of `fs.go`: builds the object
from path and `FileInfo`; for a non-directory regular file it runs
`GenerateSum` and `DetectContentType` (the returned effect list is the
paths on which `GenerateSum` ran). -/
def NewFSObj (digest ctype : String → String) (path : String) (info : GoFileInfo)
    (root : Bool) : FilesystemObjectV2 × List String :=
  let fso : FilesystemObjectV2 :=
    { path := path, hash := "", contentType := "", size := info.size,
      modTime := info.modTime, isDir := info.isDir, regular := info.regular, root := root }
  if !info.isDir && info.regular then
    ({ fso with hash := digest path, contentType := ctype path }, [path])
  else (fso, [])

/-- `FSObjFromPath` from the cache revision of `fs.go`, after a
successful `os.Stat` returning `info`: looks the path up in the
content cache (`GetFromCache`, modelled as the map `cache`), returns
the cached node unchanged when `IsEqual` holds, and otherwise builds a
brand-new node with `NewFSObj`. -/
def FSObjFromPath (digest ctype : String → String)
    (cache : String → Option FilesystemObjectV2) (path : String) (root : Bool)
    (info : GoFileInfo) : FilesystemObjectV2 × List String :=
  match cache path with
  | some f =>
    if IsEqual f path info.size info.modTime then (f, [])
    else NewFSObj digest ctype path info root
  | none => NewFSObj digest ctype path info root

/-- One on-disk directory entry as reported by `ioutil.ReadDir`
(name plus the `FileInfo` fields the scan reads); directories carry
their own entries recursively. -/
inductive DiskEntry where
  | dfile (name : String) (size : Int) (modTime : Nat) (regular : Bool)
  | ddir (name : String) (size : Int) (modTime : Nat) (entries : List DiskEntry)
deriving Repr

/-- A scanned tree of cache-revision nodes. -/
inductive FSOTree where
  | node (obj : FilesystemObjectV2) (children : List FSOTree)
deriving Repr

/-- The object stored at the root of a scanned tree. -/
def treeObj : FSOTree → FilesystemObjectV2
  | .node o _ => o

/-- The body of `Scan` from the cache revision of `fs.go`, over the
entries `ioutil.ReadDir` reports for the directory `base`: for every
entry it joins the name onto `base` and calls `NewFSObj` directly on
the entry's `FileInfo` (`f, err := NewFSObj(path, file, false, ...)`);
a directory child is then scanned recursively.  The second component
collects, in encounter order, the paths on which `GenerateSum` ran.
Per-entry permission errors (which `Scan` skips) and directory-read
errors (which abort it) are absent from this pure model. -/
def scanEntries (digest ctype : String → String) : String → List DiskEntry → List FSOTree × List String
  | _, [] => ([], [])
  | base, .dfile name sz mt reg :: rest =>
    let p := pathJoin base name
    let o := NewFSObj digest ctype p ⟨sz, mt, false, reg⟩ false
    let r := scanEntries digest ctype base rest
    (.node o.1 [] :: r.1, o.2 ++ r.2)
  | base, .ddir name sz mt es :: rest =>
    let p := pathJoin base name
    let o := NewFSObj digest ctype p ⟨sz, mt, true, false⟩ false
    let c := scanEntries digest ctype p es
    let r := scanEntries digest ctype base rest
    (.node o.1 c.1 :: r.1, (o.2 ++ c.2) ++ r.2)

/-- The joined paths of all regular-file entries of a disk listing, in
encounter order (the files whose digest a scan must compute). -/
def regularEntryPaths : String → List DiskEntry → List String
  | _, [] => []
  | base, .dfile name _ _ reg :: rest =>
    (if reg then [pathJoin base name] else []) ++ regularEntryPaths base rest
  | base, .ddir name _ _ es :: rest =>
    regularEntryPaths (pathJoin base name) es ++ regularEntryPaths base rest

/-! ## The current revision's constructors (`fs.go` with
`ObjFromPath`, no digest)

`NewFSObj`/`ObjFromPath` of the current `fs.go` return a *pointer* and
an error; on failure they return `&FilesystemObject{}` — a non-nil
pointer to the zero-valued struct — together with the error.  The
pointer is modelled as `Option` (`none` = nil pointer), so the claim
"never nil" is the first component never being `none`.  The raw
`os.FileMode` bits are kept as a `Nat` so that the zero value's
`Mode(0).IsRegular() = true` is represented faithfully. -/

def goModeDir : Nat := 2 ^ 31
def goModeSymlink : Nat := 2 ^ 27
def goModeDevice : Nat := 2 ^ 26
def goModeNamedPipe : Nat := 2 ^ 25
def goModeSocket : Nat := 2 ^ 24
def goModeCharDevice : Nat := 2 ^ 21
def goModeIrregular : Nat := 2 ^ 19

/-- Go `fs.ModeType`: the union of the file-type bits. -/
def goModeType : Nat :=
  goModeDir ||| goModeSymlink ||| goModeNamedPipe ||| goModeSocket |||
    goModeDevice ||| goModeCharDevice ||| goModeIrregular

/-- Go `FileMode.IsRegular()`: no type bit is set. -/
def fileModeIsRegular (m : Nat) : Bool := m &&& goModeType == 0

/-- The current revision's `FilesystemObject` metadata fields (no
`Hash`); the mode is kept as raw bits. -/
structure FilesystemObjectV1 where
  path : String
  contentType : String
  size : Int
  modTime : Nat
  isDir : Bool
  mode : Nat
  root : Bool
deriving Repr, DecidableEq

/-- The zero value `FilesystemObject{}` returned alongside errors. -/
def zeroFSObjV1 : FilesystemObjectV1 :=
  { path := "", contentType := "", size := 0, modTime := 0, isDir := false,
    mode := 0, root := false }

/-- `os.FileInfo` fields read by the current revision's constructor. -/
structure GoFileInfoV1 where
  size : Int
  modTime : Nat
  isDir : Bool
  mode : Nat
deriving Repr, DecidableEq

/-- The error values the constructors can produce: a wrapped `os.Stat`
error or a wrapped `DetectContentType` error. -/
inductive GoErr where
  | statErr
  | contentTypeErr
deriving Repr, DecidableEq

/-- `NewFSObj` from the current `fs.go`: builds the object; for a
non-directory regular file it runs `DetectContentType` (modelled by the
oracle `detect`; `.error` = the open/read failed), and on failure
returns the zero object together with the error. -/
def NewFSObjV1 (detect : String → Except Unit String) (path : String) (info : GoFileInfoV1)
    (root : Bool) : Option FilesystemObjectV1 × Option GoErr :=
  let fso : FilesystemObjectV1 :=
    { path := path, contentType := "", size := info.size, modTime := info.modTime,
      isDir := info.isDir, mode := info.mode, root := root }
  if !info.isDir && fileModeIsRegular info.mode then
    match detect path with
    | .error _ => (some zeroFSObjV1, some .contentTypeErr)
    | .ok ct => (some { fso with contentType := ct }, none)
  else (some fso, none)

/-- `ObjFromPath` from the current `fs.go`: stats the path (`stat`
oracle; `none` = the stat failed) and on failure returns the zero
object together with the wrapped stat error, otherwise defers to
`NewFSObjV1`. -/
def ObjFromPath (detect : String → Except Unit String) (stat : String → Option GoFileInfoV1)
    (path : String) (root : Bool) : Option FilesystemObjectV1 × Option GoErr :=
  match stat path with
  | none => (some zeroFSObjV1, some .statErr)
  | some info => NewFSObjV1 detect path info root

/-! ## The download/delete handler (`pkg/server/fileinfo.go`)

`DownloadHandler.ServeHTTP` is modelled as the list of externally
visible effects it performs, in order: response writes
(`httputil.ErrResponse` status codes), the `os.Stat` performed by
`fs.ObjFromPath` on the resolved disk path, the delegation to
`http.ServeFile`, and the `os.Remove` performed by `fso.Delete()`.
The outcome of the stat is an oracle (`StatResult`); the sniffed
content-type oracle of `ObjFromPath` is taken to succeed (its failure
is irrelevant to the handler claims).  Crucially, the Go source has no
`return` after the traversal-rejection `ErrResponse`, after the
internal-error `ErrResponse`, or after the non-regular-file
`ErrResponse` — execution falls through, which the model reproduces;
after a fallen-through stat error the handler proceeds with the zero
`FilesystemObject` (`Path = ""`, `IsDir = false`,
`Mode(0).IsRegular() = true`). -/

inductive StatResult where
  | notExist
  | permDenied
  | otherErr
  | ok (isDir : Bool) (regular : Bool)
deriving Repr, DecidableEq

inductive HEffect where
  | statDisk (path : String)
  | respond (status : Nat)
  | serveFile (path : String)
  | removeFile (path : String)
deriving Repr, DecidableEq

/-- The tail of `DownloadHandler.ServeHTTP` after `fs.ObjFromPath`
returned an object with fields (`fsoP`, `isDir`, `regular`): the
non-regular-file rejection (no `return`!) followed by the method
switch (`GET`/`HEAD` serve, `DELETE` removes — a failing removal
responds 500 — anything else responds 405). -/
def methodDispatch (removeOk : String → Bool) (method : String) (fsoP : String)
    (isDir regular : Bool) : List HEffect :=
  (if isDir || !regular then [HEffect.respond 400] else []) ++
    (if method == "GET" || method == "HEAD" then [HEffect.serveFile fsoP]
     else if method == "DELETE" then
       HEffect.removeFile fsoP :: (if removeOk fsoP then [] else [HEffect.respond 500])
     else [HEffect.respond 405])

/-- `DownloadHandler.ServeHTTP` for a handler bound to (`diskPath`,
`servePath`): the `containsDotDot` rejection (no `return`!), the path
resolution `path.Join(dh.diskPath, strings.TrimPrefix(r.URL.Path,
dh.servePath))`, the stat with its error mapping (`NotExist` → 404
return, `PermissionDenied` → 403 return, other → 500 and fall
through with the zero object), and the method dispatch. -/
def ServeHTTP (stat : String → StatResult) (removeOk : String → Bool)
    (diskPath servePath : String) (method urlPath : String) : List HEffect :=
  let pre : List HEffect := if containsDotDot urlPath then [HEffect.respond 400] else []
  let dp := pathJoin diskPath (goTrimPrefixOf urlPath servePath)
  match stat dp with
  | .notExist => pre ++ [HEffect.statDisk dp, HEffect.respond 404]
  | .permDenied => pre ++ [HEffect.statDisk dp, HEffect.respond 403]
  | .otherErr =>
    pre ++ [HEffect.statDisk dp, HEffect.respond 500] ++ methodDispatch removeOk method "" false true
  | .ok d reg => pre ++ [HEffect.statDisk dp] ++ methodDispatch removeOk method dp d reg

/-! ## Lemmas about `Clean` -/

/-- `listHasNonDir` agrees with `any subtreeHasNonDir`. -/
theorem listHasNonDir_eq_any (l : List FSO) : listHasNonDir l = l.any subtreeHasNonDir := by
  induction l using listHasNonDir.induct with
  | case1 => simp [listHasNonDir]
  | case2 => simp [listHasNonDir, subtreeHasNonDir]
  | case3 p b cs rest ihc ihr => simp [listHasNonDir, subtreeHasNonDir, ihr]

/-- Every tree kept by the `Clean` child loop contains a
non-directory node, and so does every directory nested inside it. -/
theorem cleanList_sound (cs : List FSO) :
    (∀ c ∈ (cleanList cs).1, subtreeHasNonDir c = true) ∧
      listDirsHaveNonDir (cleanList cs).1 = true := by
  induction cs using cleanList.induct with
  | case1 => simp [cleanList, listDirsHaveNonDir]
  | case2 fp fr rest ih =>
    refine ⟨?_, ?_⟩
    · intro c hc
      simp only [cleanList] at hc
      rcases List.mem_cons.1 hc with h | h
      · subst h; simp [subtreeHasNonDir]
      · exact ih.1 c h
    · simp only [cleanList, listDirsHaveNonDir]
      exact ih.2
  | case3 dp dcs rest ihc ihr =>
    refine ⟨?_, ?_⟩
    · intro c hc
      simp only [cleanList] at hc
      exact ihr.1 c hc
    · simp only [cleanList]
      exact ihr.2
  | case4 dp droot dcs rest c hnd hl ihc ihr =>
    have hlen : (cleanList dcs).1.length > 0 := hl
    have hne : (cleanList dcs).1 ≠ [] := by
      intro h
      rw [h] at hlen
      simp at hlen
    have hkeep : cleanList (FSO.dir dp droot dcs :: rest) =
        (FSO.dir dp droot (cleanList dcs).1 :: (cleanList rest).1,
          (cleanList dcs).2 ++ (cleanList rest).2) := by
      simp only [cleanList]
      rw [if_neg hnd, if_pos hlen]
    have hany : listHasNonDir (cleanList dcs).1 = true := by
      rw [listHasNonDir_eq_any]
      rcases List.exists_mem_of_ne_nil _ hne with ⟨x, hx⟩
      exact List.any_eq_true.2 ⟨x, hx, ihc.1 x hx⟩
    refine ⟨?_, ?_⟩
    · intro d hd
      rw [hkeep] at hd
      rcases List.mem_cons.1 hd with h | h
      · subst h
        simpa [subtreeHasNonDir] using hany
      · exact ihr.1 d h
    · rw [hkeep]
      simp only [listDirsHaveNonDir]
      rw [hany, ihc.2, ihr.2]
      simp
  | case5 dp droot dcs rest c hnd hl ihc ihr =>
    have hlen : ¬(cleanList dcs).1.length > 0 := hl
    have hdrop : cleanList (FSO.dir dp droot dcs :: rest) =
        ((cleanList rest).1, ((cleanList dcs).2 ++ [dp]) ++ (cleanList rest).2) := by
      simp only [cleanList]
      rw [if_neg hnd, if_neg hlen]
    refine ⟨?_, ?_⟩
    · intro d hd
      rw [hdrop] at hd
      exact ihr.1 d hd
    · rw [hdrop]
      exact ihr.2

/-- Every path removed by the `Clean` child loop is the path of a
directory node of the input forest. -/
theorem cleanList_dels (cs : List FSO) :
    ∀ q ∈ (cleanList cs).2, q ∈ listDirPaths cs := by
  induction cs using cleanList.induct with
  | case1 => simp [cleanList]
  | case2 fp fr rest ih =>
    intro q hq
    simp only [cleanList] at hq
    simp only [listDirPaths]
    exact ih q hq
  | case3 dp dcs rest ihc ihr =>
    intro q hq
    simp only [cleanList] at hq
    simp only [listDirPaths]
    rcases List.mem_append.1 hq with h | h
    · exact List.mem_cons_of_mem _ (List.mem_append.2 (Or.inl (ihc q h)))
    · exact List.mem_cons_of_mem _ (List.mem_append.2 (Or.inr (ihr q h)))
  | case4 dp droot dcs rest c hnd hl ihc ihr =>
    intro q hq
    have hlen : (cleanList dcs).1.length > 0 := hl
    have hkeep : (cleanList (FSO.dir dp droot dcs :: rest)).2 =
        (cleanList dcs).2 ++ (cleanList rest).2 := by
      simp only [cleanList]
      rw [if_neg hnd, if_pos hlen]
    rw [hkeep] at hq
    simp only [listDirPaths]
    rcases List.mem_append.1 hq with h | h
    · exact List.mem_cons_of_mem _ (List.mem_append.2 (Or.inl (ihc q h)))
    · exact List.mem_cons_of_mem _ (List.mem_append.2 (Or.inr (ihr q h)))
  | case5 dp droot dcs rest c hnd hl ihc ihr =>
    intro q hq
    have hlen : ¬(cleanList dcs).1.length > 0 := hl
    have hdrop : (cleanList (FSO.dir dp droot dcs :: rest)).2 =
        ((cleanList dcs).2 ++ [dp]) ++ (cleanList rest).2 := by
      simp only [cleanList]
      rw [if_neg hnd, if_neg hlen]
    rw [hdrop] at hq
    simp only [listDirPaths]
    rcases List.mem_append.1 hq with h | h
    · rcases List.mem_append.1 h with h2 | h2
      · exact List.mem_cons_of_mem _ (List.mem_append.2 (Or.inl (ihc q h2)))
      · simp only [List.mem_singleton] at h2
        subst h2
        exact List.mem_cons_self _ _
    · exact List.mem_cons_of_mem _ (List.mem_append.2 (Or.inr (ihr q h)))

/-- The `Clean` child loop is idempotent: re-cleaning its output keeps
every node and removes nothing. -/
theorem cleanList_idem (cs : List FSO) :
    cleanList (cleanList cs).1 = ((cleanList cs).1, []) := by
  induction cs using cleanList.induct with
  | case1 => simp [cleanList]
  | case2 fp fr rest ih =>
    simp only [cleanList]
    rw [ih]
  | case3 dp dcs rest ihc ihr =>
    simp only [cleanList]
    exact ihr
  | case4 dp droot dcs rest c hnd hl ihc ihr =>
    have hlen : (cleanList dcs).1.length > 0 := hl
    have hkeep : cleanList (FSO.dir dp droot dcs :: rest) =
        (FSO.dir dp droot (cleanList dcs).1 :: (cleanList rest).1,
          (cleanList dcs).2 ++ (cleanList rest).2) := by
      simp only [cleanList]
      rw [if_neg hnd, if_pos hlen]
    rw [hkeep]
    simp only [cleanList]
    rw [ihc, ihr]
    rw [if_neg hnd]
    rw [if_pos]
    · simp
    · simpa [ihc] using hlen
  | case5 dp droot dcs rest c hnd hl ihc ihr =>
    have hlen : ¬(cleanList dcs).1.length > 0 := hl
    have hdrop : cleanList (FSO.dir dp droot dcs :: rest) =
        ((cleanList rest).1, ((cleanList dcs).2 ++ [dp]) ++ (cleanList rest).2) := by
      simp only [cleanList]
      rw [if_neg hnd, if_neg hlen]
    rw [hdrop]
    exact ihr

/-- Elements produced by the `GetAllFiles` child loop are regular
files passing the name filter. -/
theorem getAllFilesList_mem (cs : List FSO) :
    ∀ f ∈ getAllFilesList cs, ∃ fp, f = FSO.file fp true ∧
      goHasPrefixStr (pathBase fp) "." = false ∧ goHasSuffixStr fp "~" = false := by
  induction cs using getAllFilesList.induct with
  | case1 => simp [getAllFilesList]
  | case2 q b dcs rest ihc ihr =>
    intro f hf
    simp only [getAllFilesList] at hf
    rcases List.mem_append.1 hf with h | h
    · exact ihc f h
    · exact ihr f h
  | case3 fp freg rest ih =>
    intro f hf
    simp only [getAllFilesList] at hf
    rcases List.mem_append.1 hf with h | h
    · by_cases hc : (freg && !goHasPrefixStr (pathBase fp) "." && !goHasSuffixStr fp "~") = true
      · rw [if_pos hc] at h
        simp only [List.mem_singleton] at h
        subst h
        simp only [Bool.and_eq_true, Bool.not_eq_true'] at hc
        exact ⟨fp, by rw [hc.1.1], hc.1.2, hc.2⟩
      · rw [if_neg hc] at h
        simp at h
    · exact ih f h

/-! ## Claim theorems -/

/-- C1, counterexample.  The claim states that after a successful
`Clean` on the root, every remaining non-root directory contains at
least one descendant *regular file*.  Here the root `/r` contains the
directory `/r/d` whose only entry is a non-regular file (e.g. a named
pipe: `IsDir` false, `Mode.IsRegular()` false).  `Clean` succeeds,
keeps `/r/d` (its child is a non-directory, which the loop keeps
unconditionally), deletes nothing — yet `/r/d` has no descendant
regular file. -/
theorem clean_keeps_dir_with_no_regular_file :
    cleanNode (FSO.dir "/r" true [FSO.dir "/r/d" false [FSO.file "/r/d/p" false]]) =
      (none, FSO.dir "/r" true [FSO.dir "/r/d" false [FSO.file "/r/d/p" false]], []) ∧
    subtreeHasRegFile (FSO.dir "/r/d" false [FSO.file "/r/d/p" false]) = false := by
  constructor
  · simp [cleanNode, cleanList]
  · simp [subtreeHasRegFile, listHasRegFile]

/-- C1, amended.  After `Clean` completes on the root (which always
succeeds in the tree model, returning `nil`): the root node itself is
kept — with its `Root` flag — whatever its emptiness, and the paths
passed to the disk-removal call all belong to directory nodes strictly
inside the original children (so the root's own removal is never
invoked); every directory remaining in the tree, at any depth,
contains at least one descendant *non-directory entry* (not
necessarily a regular file, which is what the counterexample refutes). -/
theorem clean_root_keeps_only_nonempty_dirs (p : String) (cs : List FSO) :
    cleanNode (FSO.dir p true cs) =
      (none, FSO.dir p true (cleanList cs).1, (cleanList cs).2) ∧
    (∀ c ∈ (cleanList cs).1, subtreeHasNonDir c = true) ∧
    listDirsHaveNonDir (cleanList cs).1 = true ∧
    (∀ q ∈ (cleanList cs).2, q ∈ listDirPaths cs) := by
  refine ⟨by simp [cleanNode], (cleanList_sound cs).1, (cleanList_sound cs).2, cleanList_dels cs⟩

/-- Witness for C1 (amended): both membership hypotheses discharged at
concrete inputs. -/
theorem clean_root_keeps_only_nonempty_dirs_witness :
    subtreeHasNonDir (FSO.dir "/r/d" false [FSO.file "/r/d/p" true]) = true ∧
    "/r/e" ∈ listDirPaths [FSO.dir "/r/d" false [FSO.file "/r/d/p" true],
      FSO.dir "/r/e" false []] := by
  constructor
  · exact (clean_root_keeps_only_nonempty_dirs "/r"
      [FSO.dir "/r/d" false [FSO.file "/r/d/p" true]]).2.1 _ (by simp [cleanList])
  · exact (clean_root_keeps_only_nonempty_dirs "/r"
      [FSO.dir "/r/d" false [FSO.file "/r/d/p" true], FSO.dir "/r/e" false []]).2.2.2
      "/r/e" (by simp [cleanList])

/-- C4: for a non-root directory processed by `Clean`: if no children
remain once its subtree is cleaned, the node's own path is appended to
the removal list (the `os.Remove` of `fso.Delete()`) and `nil` is
returned, whereupon the parent loop drops the child; if children
remain, `ErrDirNotEmpty` is returned, the removal list carries only
the subtree's removals (the node itself is not deleted), and the
parent loop keeps the node with its cleaned children. -/
theorem clean_nonroot_deletes_iff_emptied (dp : String) (dcs rest : List FSO) :
    ((cleanList dcs).1 = [] →
      cleanNode (FSO.dir dp false dcs) =
        (none, FSO.dir dp false [], (cleanList dcs).2 ++ [dp]) ∧
      cleanList (FSO.dir dp false dcs :: rest) =
        ((cleanList rest).1, ((cleanList dcs).2 ++ [dp]) ++ (cleanList rest).2)) ∧
    ((cleanList dcs).1 ≠ [] →
      cleanNode (FSO.dir dp false dcs) =
        (some .errDirNotEmpty, FSO.dir dp false (cleanList dcs).1, (cleanList dcs).2) ∧
      cleanList (FSO.dir dp false dcs :: rest) =
        (FSO.dir dp false (cleanList dcs).1 :: (cleanList rest).1,
          (cleanList dcs).2 ++ (cleanList rest).2)) := by
  constructor
  · intro h
    have hlen : ¬(cleanList dcs).1.length > 0 := by
      rw [h]; simp
    constructor
    · simp only [cleanNode]
      rw [if_neg (by simp : ¬false = true), if_neg hlen, h]
    · simp only [cleanList]
      rw [if_neg (by simp : ¬false = true), if_neg hlen]
  · intro h
    have hlen : (cleanList dcs).1.length > 0 := List.length_pos.2 h
    constructor
    · simp only [cleanNode]
      rw [if_neg (by simp : ¬false = true), if_pos hlen]
    · simp only [cleanList]
      rw [if_neg (by simp : ¬false = true), if_pos hlen]

/-- Witness for C4: both branches applied at concrete inputs. -/
theorem clean_nonroot_deletes_iff_emptied_witness :
    cleanNode (FSO.dir "/a/d" false []) = (none, FSO.dir "/a/d" false [], ["/a/d"]) ∧
    cleanNode (FSO.dir "/a/k" false [FSO.file "/a/k/f" true]) =
      (some .errDirNotEmpty, FSO.dir "/a/k" false [FSO.file "/a/k/f" true], []) := by
  constructor
  · have h := (clean_nonroot_deletes_iff_emptied "/a/d" [] []).1 (by simp [cleanList])
    simpa [cleanList] using h.1
  · have h := (clean_nonroot_deletes_iff_emptied "/a/k" [FSO.file "/a/k/f" true] []).2
      (by simp [cleanList])
    simpa [cleanList] using h.1

/-- C6: `Clean` is idempotent.  The first run on the scanned root
returns `nil` with the cleaned tree and its removals; running `Clean`
again on that result (the re-`Scan` of an unchanged disk reproduces
exactly the cleaned tree, since the first run removed from disk
precisely the subtrees it dropped) returns the identical tree and an
empty removal list — no further disk deletions. -/
theorem clean_idempotent (p : String) (cs : List FSO) :
    cleanNode (FSO.dir p true cs) =
      (none, FSO.dir p true (cleanList cs).1, (cleanList cs).2) ∧
    cleanNode (FSO.dir p true (cleanList cs).1) =
      (none, FSO.dir p true (cleanList cs).1, []) := by
  constructor
  · simp [cleanNode]
  · simp [cleanNode, cleanList_idem]

/-- C10: `GetAllFiles` filters only by each entry's own name — every
collected node is a regular file whose base name does not start with
`"."` and whose path does not end with `"~"` — while directory
children are recursed into regardless of their name: a regular file
inside the dot-directory `/root/.hidden` is included. -/
theorem getAllFiles_filters_by_own_name_only (t : FSO) :
    (∀ f ∈ fsoGetAllFiles t, ∃ fp, f = FSO.file fp true ∧
      goHasPrefixStr (pathBase fp) "." = false ∧ goHasSuffixStr fp "~" = false) ∧
    fsoGetAllFiles (FSO.dir "/root" true
      [FSO.dir "/root/.hidden" false [FSO.file "/root/.hidden/movie.mp4" true]]) =
      [FSO.file "/root/.hidden/movie.mp4" true] := by
  constructor
  · intro f hf
    match t with
    | .file _ _ => simp [fsoGetAllFiles] at hf
    | .dir _ _ cs => exact getAllFilesList_mem cs f hf
  · have h1 : goHasPrefixStr (pathBase "/root/.hidden/movie.mp4") "." = false := by decide
    have h2 : goHasSuffixStr "/root/.hidden/movie.mp4" "~" = false := by decide
    simp [fsoGetAllFiles, getAllFilesList, h1, h2]

/-- Witness for C10: the membership hypothesis discharged at a
concrete collected file. -/
theorem getAllFiles_filters_by_own_name_only_witness :
    ∃ fp, FSO.file "/root/.hidden/movie.mp4" true = FSO.file fp true ∧
      goHasPrefixStr (pathBase fp) "." = false ∧ goHasSuffixStr fp "~" = false := by
  refine (getAllFiles_filters_by_own_name_only (FSO.dir "/root" true
    [FSO.dir "/root/.hidden" false [FSO.file "/root/.hidden/movie.mp4" true]])).1 _ ?_
  rw [(getAllFiles_filters_by_own_name_only (FSO.file "" true)).2]
  simp

/-- C7: every `WebObject` produced by `Registry.GetAllFiles` has its
web path formed by `strings.ReplaceAll`-substituting the registered
disk-root path fragment with the (trailing-slash-trimmed) web prefix;
in particular disk root `/data/media` registered at `/media/` turns
disk file `/data/media/x/y.mp4` into web path `/media/x/y.mp4`. -/
theorem registry_rewrites_disk_paths :
    (∀ reg out, registryGetAllFiles reg = .ok out → ∀ w ∈ out,
      ∃ pre root, (pre, root) ∈ reg ∧
        w.webPath = goReplaceAll (fsoPath w.fso) (fsoPath root) (goTrimRight pre ['/'])) ∧
    registryGetAllFiles [("/media/", FSO.dir "/data/media" true
        [FSO.dir "/data/media/x" false [FSO.file "/data/media/x/y.mp4" true]])] =
      .ok [⟨FSO.file "/data/media/x/y.mp4" true, "/media/x/y.mp4"⟩] := by
  constructor
  · intro reg
    induction reg with
    | nil =>
      intro out h w hw
      simp only [registryGetAllFiles] at h
      cases h
      simp at hw
    | cons hd tl ih =>
      intro out h w hw
      obtain ⟨p, fso⟩ := hd
      simp only [registryGetAllFiles] at h
      rcases hcc : (cleanNode fso).1 with _ | e
      · rw [hcc] at h
        rcases hrec : registryGetAllFiles tl with e2 | others
        · rw [hrec] at h
          simp at h
        · rw [hrec] at h
          simp only [Except.ok.injEq] at h
          subst h
          rcases List.mem_append.1 hw with hmem | hmem
          · rcases List.mem_map.1 hmem with ⟨l, _, hl⟩
            refine ⟨p, fso, List.mem_cons_self _ _, ?_⟩
            rw [← hl]
            rfl
          · rcases ih others hrec w hmem with ⟨pre, root, hin, heq⟩
            exact ⟨pre, root, List.mem_cons_of_mem _ hin, heq⟩
      · rw [hcc] at h
        simp at h
  · have h1 : goHasPrefixStr (pathBase "/data/media/x/y.mp4") "." = false := by decide
    have h2 : goHasSuffixStr "/data/media/x/y.mp4" "~" = false := by decide
    have h3 : goReplaceAll "/data/media/x/y.mp4" "/data/media" (goTrimRight "/media/" ['/']) =
        "/media/x/y.mp4" := by decide
    simp [registryGetAllFiles, cleanNode, cleanList, fsoGetAllFiles, getAllFilesList,
      newWebObject, fsoPath, h1, h2, h3]

/-- Witness for C7: the membership hypotheses discharged on the
concrete single-root registry. -/
theorem registry_rewrites_disk_paths_witness :
    ∃ pre root, (pre, root) ∈ [("/media/", FSO.dir "/data/media" true
        [FSO.dir "/data/media/x" false [FSO.file "/data/media/x/y.mp4" true]])] ∧
      (WebObject.mk (FSO.file "/data/media/x/y.mp4" true) "/media/x/y.mp4").webPath =
        goReplaceAll
          (fsoPath (WebObject.mk (FSO.file "/data/media/x/y.mp4" true) "/media/x/y.mp4").fso)
          (fsoPath root) (goTrimRight pre ['/']) :=
  registry_rewrites_disk_paths.1 _ _ registry_rewrites_disk_paths.2 _ (by simp)

/-- C5: with an existing cache entry `f` for `path` (cache entries are
keyed by their own `Path`, hence `f.path = path`), re-creating the node
from a fresh stat recomputes the digest iff the stat'd size or
modification time differs from the cached values: on a full match the
cached node is returned unchanged with no `GenerateSum` run, and on
any mismatch a brand-new node is built with a new digest and
content-type. -/
theorem cache_reuse_iff_size_and_mtime_match (digest ctype : String → String)
    (cache : String → Option FilesystemObjectV2) (path : String) (root : Bool)
    (info : GoFileInfo) (f : FilesystemObjectV2) (hc : cache path = some f)
    (hp : f.path = path) (hdir : info.isDir = false) (hreg : info.regular = true) :
    ((FSObjFromPath digest ctype cache path root info).2 ≠ [] ↔
      f.size ≠ info.size ∨ f.modTime ≠ info.modTime) ∧
    (f.size = info.size ∧ f.modTime = info.modTime →
      FSObjFromPath digest ctype cache path root info = (f, [])) ∧
    (f.size ≠ info.size ∨ f.modTime ≠ info.modTime →
      FSObjFromPath digest ctype cache path root info =
        (⟨path, digest path, ctype path, info.size, info.modTime, false, true, root⟩,
          [path])) := by
  have hmk : NewFSObj digest ctype path info root =
      (⟨path, digest path, ctype path, info.size, info.modTime, false, true, root⟩,
        [path]) := by
    simp only [NewFSObj, hdir, hreg]
    simp
  by_cases hm : f.size = info.size ∧ f.modTime = info.modTime
  · have hie : IsEqual f path info.size info.modTime = true := by
      simp [IsEqual, hp, hm.1, hm.2]
    have hres : FSObjFromPath digest ctype cache path root info = (f, []) := by
      simp [FSObjFromPath, hc, hie]
    have hno : ¬(f.size ≠ info.size ∨ f.modTime ≠ info.modTime) := by
      push_neg
      exact hm
    exact ⟨by rw [hres]; exact iff_of_false (by simp) hno,
      fun _ => hres, fun hcon => absurd hcon hno⟩
  · have hor : f.size ≠ info.size ∨ f.modTime ≠ info.modTime := by
      by_contra hno
      push_neg at hno
      exact hm ⟨hno.1, hno.2⟩
    have hie : IsEqual f path info.size info.modTime = false := by
      rcases hor with h | h
      · have h1 : (f.size == info.size) = false := by
          rw [Bool.eq_false_iff]
          intro hb
          exact h (beq_iff_eq.mp hb)
        simp [IsEqual, hp, h1]
      · have h1 : (f.modTime == info.modTime) = false := by
          rw [Bool.eq_false_iff]
          intro hb
          exact h (beq_iff_eq.mp hb)
        simp [IsEqual, hp, h1]
    have hres : FSObjFromPath digest ctype cache path root info =
        NewFSObj digest ctype path info root := by
      simp [FSObjFromPath, hc, hie]
    refine ⟨?_, fun he => absurd he hm, fun _ => by rw [hres, hmk]⟩
    rw [hres, hmk]
    exact iff_of_true (by simp) hor

/-- Witness for C5: a cache hit and a cache miss at concrete inputs. -/
theorem cache_reuse_iff_size_and_mtime_match_witness :
    FSObjFromPath (fun _ => "new") (fun _ => "nct")
        (fun q => if q = "/f" then some ⟨"/f", "old", "ct", 5, 100, false, true, false⟩ else none)
        "/f" false ⟨5, 100, false, true⟩ =
      (⟨"/f", "old", "ct", 5, 100, false, true, false⟩, []) ∧
    FSObjFromPath (fun _ => "new") (fun _ => "nct")
        (fun q => if q = "/f" then some ⟨"/f", "old", "ct", 5, 100, false, true, false⟩ else none)
        "/f" false ⟨6, 100, false, true⟩ =
      (⟨"/f", "new", "nct", 6, 100, false, true, false⟩, ["/f"]) := by
  constructor
  · exact (cache_reuse_iff_size_and_mtime_match (fun _ => "new") (fun _ => "nct")
      (fun q => if q = "/f" then some ⟨"/f", "old", "ct", 5, 100, false, true, false⟩ else none)
      "/f" false ⟨5, 100, false, true⟩ ⟨"/f", "old", "ct", 5, 100, false, true, false⟩
      (by decide) rfl rfl rfl).2.1 ⟨rfl, rfl⟩
  · exact (cache_reuse_iff_size_and_mtime_match (fun _ => "new") (fun _ => "nct")
      (fun q => if q = "/f" then some ⟨"/f", "old", "ct", 5, 100, false, true, false⟩ else none)
      "/f" false ⟨6, 100, false, true⟩ ⟨"/f", "old", "ct", 5, 100, false, true, false⟩
      (by decide) rfl rfl rfl).2.2 (Or.inl (by decide))

/-- C3, counterexample.  The claim states that `Scan` reuses an
up-to-date cached node instead of constructing a new one.  Concretely:
the cache holds a node for `/r/a.mp4` that is up to date for the
freshly listed entry (`IsEqual` on path, size `5`, modification time
`100` holds), yet scanning the directory recomputes the digest for
that very path (`GenerateSum` effect list `= ["/r/a.mp4"]`) and the
scanned tree carries a brand-new node whose hash is the freshly
computed `"new"`, not the cached node with hash `"old"` — the cache
revision's `Scan` calls `NewFSObj` directly and never consults the
cache. -/
theorem scan_recomputes_digest_despite_cache_hit :
    IsEqual ⟨"/r/a.mp4", "old", "ct", 5, 100, false, true, false⟩ "/r/a.mp4" 5 100 = true ∧
    (scanEntries (fun _ => "new") (fun _ => "ct") "/r" [DiskEntry.dfile "a.mp4" 5 100 true]).2 =
      ["/r/a.mp4"] ∧
    ((scanEntries (fun _ => "new") (fun _ => "ct") "/r"
        [DiskEntry.dfile "a.mp4" 5 100 true]).1.map treeObj) =
      [⟨"/r/a.mp4", "new", "ct", 5, 100, false, true, false⟩] ∧
    ("new" : String) ≠ "old" := by
  have hp : pathJoin "/r" "a.mp4" = "/r/a.mp4" := by decide
  refine ⟨by decide, ?_, ?_, by decide⟩
  · simp [scanEntries, NewFSObj, hp]
  · simp [scanEntries, NewFSObj, treeObj, hp]

/-- C3, amended.  `Scan` constructs a new node for every entry by
calling `NewFSObj` directly on the `ReadDir` `FileInfo` — recomputing
digest and content-type for every regular file on every rescan,
regardless of any cache content: the `GenerateSum` effect list of a
scan is exactly the joined paths of the regular entries encountered
(cache-based reuse exists only in `FSObjFromPath`, which `Scan` does
not call). -/
theorem scan_digests_every_regular_entry (digest ctype : String → String) (base : String)
    (es : List DiskEntry) :
    (scanEntries digest ctype base es).2 = regularEntryPaths base es := by
  induction base, es using scanEntries.induct digest ctype with
  | case1 base => simp [scanEntries, regularEntryPaths]
  | case2 base name sz mt reg rest ih =>
    cases reg <;> simp [scanEntries, regularEntryPaths, NewFSObj, ih]
  | case3 base name sz mt es2 rest p ihc ihr =>
    simp [scanEntries, regularEntryPaths, NewFSObj, ihc, ihr]

/-- C9: on a stat failure `ObjFromPath`, and on a content-type failure
`NewFSObj`, return a non-nil pointer to the zero-valued
`FilesystemObject` alongside the error — the returned pointer is never
nil in any case, and the zero object has empty path, directory flag
false and size zero. -/
theorem constructors_never_return_nil (detect : String → Except Unit String)
    (stat : String → Option GoFileInfoV1) (path : String) (root : Bool) :
    (stat path = none → ObjFromPath detect stat path root = (some zeroFSObjV1, some .statErr)) ∧
    (∀ info : GoFileInfoV1, info.isDir = false → fileModeIsRegular info.mode = true →
      detect path = .error () →
      NewFSObjV1 detect path info root = (some zeroFSObjV1, some .contentTypeErr)) ∧
    (∀ info : GoFileInfoV1, (NewFSObjV1 detect path info root).1.isSome = true) ∧
    (ObjFromPath detect stat path root).1.isSome = true ∧
    zeroFSObjV1.path = "" ∧ zeroFSObjV1.isDir = false ∧ zeroFSObjV1.size = 0 := by
  have hnew : ∀ info : GoFileInfoV1, (NewFSObjV1 detect path info root).1.isSome = true := by
    intro info
    by_cases hcond : (!info.isDir && fileModeIsRegular info.mode) = true
    · rcases hdet : detect path with e | ct
      · simp [NewFSObjV1, hcond, hdet]
      · simp [NewFSObjV1, hcond, hdet]
    · simp [NewFSObjV1, hcond]
  refine ⟨?_, ?_, hnew, ?_, rfl, rfl, rfl⟩
  · intro h
    simp [ObjFromPath, h]
  · intro info hdir hmode hdet
    simp [NewFSObjV1, hdir, hmode, hdet]
  · rcases hstat : stat path with _ | info
    · simp [ObjFromPath, hstat]
    · simp only [ObjFromPath, hstat]
      exact hnew info

/-- Witness for C9: a failing stat and a failing content-type
detection at concrete inputs. -/
theorem constructors_never_return_nil_witness :
    ObjFromPath (fun _ => Except.error ()) (fun _ => none) "/nope" false =
      (some zeroFSObjV1, some GoErr.statErr) ∧
    NewFSObjV1 (fun _ => Except.error ()) "/f" ⟨3, 7, false, 0⟩ false =
      (some zeroFSObjV1, some GoErr.contentTypeErr) := by
  constructor
  · exact (constructors_never_return_nil (fun _ => Except.error ()) (fun _ => none)
      "/nope" false).1 rfl
  · exact (constructors_never_return_nil (fun _ => Except.error ()) (fun _ => none)
      "/f" false).2.1 ⟨3, 7, false, 0⟩ rfl (by decide) rfl

/-- C2, code evaluation.  A request whose path contains a delimited
`..` segment is answered with the 400 client error — but the handler
then *continues* (the Go source lacks a `return` after the
`ErrResponse`): it joins and stats the resolved disk path.  The trace
for `GET /media/a/../b` is `respond 400`, then `stat /data/b` (note
`path.Join` cleans the traversal), then the 404 from the stat.  A path
whose `..` is not a full delimited segment (`/a..b`) is not rejected:
no 400 in its trace, which goes straight to the stat. -/
theorem dotdot_rejected_but_still_stats :
    ServeHTTP (fun _ => StatResult.notExist) (fun _ => true) "/data" "/media/" "GET"
        "/media/a/../b" =
      [HEffect.respond 400, HEffect.statDisk "/data/b", HEffect.respond 404] ∧
    containsDotDot "/a..b" = false ∧
    ServeHTTP (fun _ => StatResult.notExist) (fun _ => true) "/data" "/media/" "GET"
        "/media/a..b" =
      [HEffect.statDisk "/data/a..b", HEffect.respond 404] := by
  refine ⟨by decide, by decide, by decide⟩

/-- C8, code evaluation.  The stat-error mapping is as claimed —
`NotExist` → 404, `PermissionDenied` → 403, other stat errors → 500,
directory / non-regular file → 400 — but "no file content served" is
violated: after the 500 the handler falls through with the zero object
and `GET` still delegates to the file-serving primitive (on the empty
path), and after the 400 for a directory `GET` still serves the
directory path — and `DELETE` even invokes `os.Remove` on it. -/
theorem stat_error_mapping_and_fallthrough :
    ServeHTTP (fun _ => StatResult.notExist) (fun _ => true) "/data" "/media/" "GET"
        "/media/f" = [HEffect.statDisk "/data/f", HEffect.respond 404] ∧
    ServeHTTP (fun _ => StatResult.permDenied) (fun _ => true) "/data" "/media/" "GET"
        "/media/f" = [HEffect.statDisk "/data/f", HEffect.respond 403] ∧
    ServeHTTP (fun _ => StatResult.otherErr) (fun _ => true) "/data" "/media/" "GET"
        "/media/f" = [HEffect.statDisk "/data/f", HEffect.respond 500, HEffect.serveFile ""] ∧
    ServeHTTP (fun _ => StatResult.ok true false) (fun _ => true) "/data" "/media/" "GET"
        "/media/sub" =
      [HEffect.statDisk "/data/sub", HEffect.respond 400, HEffect.serveFile "/data/sub"] ∧
    ServeHTTP (fun _ => StatResult.ok true false) (fun _ => true) "/data" "/media/" "DELETE"
        "/media/sub" =
      [HEffect.statDisk "/data/sub", HEffect.respond 400, HEffect.removeFile "/data/sub"] := by
  refine ⟨by decide, by decide, by decide, by decide, by decide⟩
